import Mathlib

/-!
Verification of `cli/txtp_maker.py` (txtp maker for vgmstream).

The script is embedded shallowly: Python strings become `List Char`,
Python ints become `Int` (arbitrary precision, as in Python 3), floats
produced by true division become `Rat` (exact; the script only divides a
sample count by a sample rate and compares against user thresholds),
raised exceptions become `Except PyErr`, and the filesystem / mutable
ledgers become explicit state records threaded through the functions.
Each definition mirrors the Python function named in its doc comment.
-/

namespace Txtp

/-- Characters treated as whitespace by Python's `str.split()` / `str.strip()`
(ASCII subset; the reports in scope contain only ASCII whitespace). -/
def isPySpace (c : Char) : Bool :=
  c = ' ' || c = '\t' || c = '\n' || c = '\r' || c = '\x0b' || c = '\x0c'

/-- The characters of a string literal: the representation used for Python strings. -/
def strL (s : String) : List Char := s.data

/-- Python `str.strip()`: drop whitespace from both ends. -/
def pyStrip (s : List Char) : List Char :=
  ((s.dropWhile isPySpace).reverse.dropWhile isPySpace).reverse

/-- Worker for `tokensWS`: accumulates the current (reversed) token. -/
def tokensGo : List Char → List Char → List (List Char)
  | [], acc => if acc = [] then [] else [acc.reverse]
  | c :: t, acc =>
    if isPySpace c then
      if acc = [] then tokensGo t [] else acc.reverse :: tokensGo t []
    else tokensGo t (c :: acc)

/-- Python `str.split()` with no argument: split on whitespace runs, dropping
empty tokens (so the result is `[]` exactly when the string is all whitespace). -/
def tokensWS (s : List Char) : List (List Char) := tokensGo s []

/-- Boolean prefix test on character lists. -/
def isPrefixL : List Char → List Char → Bool
  | [], _ => true
  | _ :: _, [] => false
  | a :: as, b :: bs => a = b && isPrefixL as bs

/-- `hay.find(pat)` for Python strings: index of the first occurrence, `none` for -1. -/
def findSub (pat : List Char) : List Char → Option Nat
  | [] => if isPrefixL pat ([] : List Char) then some 0 else none
  | c :: t =>
    if isPrefixL pat (c :: t) then some 0
    else (findSub pat t).map (fun i => i + 1)

/-- Python `s.replace(old, new, 1)`: replace the first occurrence only. -/
def replaceFirst (s pat repl : List Char) : List Char :=
  match findSub pat s with
  | none => s
  | some i => s.take i ++ repl ++ s.drop (i + pat.length)

/-- Fuelled worker for `replaceAll`; each replacement consumes at least one
character of the subject, so `s.length` fuel always suffices. -/
def replaceAllF (fuel : Nat) (pat repl : List Char) (s : List Char) : List Char :=
  match fuel with
  | 0 => s
  | fuel + 1 =>
    if pat = [] then s
    else
      match findSub pat s with
      | none => s
      | some i => s.take i ++ repl ++ replaceAllF fuel pat repl (s.drop (i + pat.length))

/-- Python `s.replace(old, new)`: replace every (non-overlapping, left-to-right)
occurrence. -/
def replaceAll (pat repl s : List Char) : List Char := replaceAllF s.length pat repl s

/-- Digit accumulation for `pyInt?`. -/
def natOfDigitsGo : List Char → Nat → Option Nat
  | [], acc => some acc
  | c :: t, acc =>
    if c.isDigit then natOfDigitsGo t (acc * 10 + (c.toNat - '0'.toNat)) else none

/-- A nonempty all-digit string's value. -/
def natOfDigits? : List Char → Option Nat
  | [] => none
  | ds => natOfDigitsGo ds 0

/-- Python `int(s)` on the strings this script feeds it (an optional sign
followed by decimal digits, surrounded by optional whitespace); other accepted
Python spellings (underscore separators, unicode digits) do not occur in the
reports in scope and are modelled as failures. -/
def pyInt? (s : List Char) : Option Int :=
  match pyStrip s with
  | '+' :: ds => (natOfDigits? ds).map Int.ofNat
  | '-' :: ds => (natOfDigits? ds).map (fun n => -(n : Int))
  | ds => (natOfDigits? ds).map Int.ofNat

/-- Decimal digits of a natural number (fuelled; `n+1` fuel always suffices). -/
def natDecF : Nat → Nat → List Char
  | 0, _ => []
  | fuel + 1, n =>
    if n < 10 then [Char.ofNat ('0'.toNat + n)]
    else natDecF fuel (n / 10) ++ [Char.ofNat ('0'.toNat + n % 10)]

/-- Python `str(n)` for a natural number. -/
def natDec (n : Nat) : List Char := natDecF (n + 1) n

/-- Python `str(i)` for an integer. -/
def intStr (i : Int) : List Char :=
  if i < 0 then '-' :: natDec (-i).toNat else natDec i.toNat

/-- Python `s.zfill(w)`: left-pad with `'0'` to width `w`, after any sign. -/
def pyZfill (w : Nat) (s : List Char) : List Char :=
  match s with
  | [] => List.replicate w '0'
  | c :: t =>
    if c = '+' || c = '-' then c :: (List.replicate (w - s.length) '0' ++ t)
    else List.replicate (w - s.length) '0' ++ s

/-- One lowercase hex digit. -/
def hexDigitChar (n : Nat) : Char :=
  if n < 10 then Char.ofNat ('0'.toNat + n) else Char.ofNat ('a'.toNat + (n - 10))

/-- Python `format(n, '08x')` for `n < 2^32`: exactly eight lowercase hex digits,
zero-padded. -/
def hex8 (n : Nat) : List Char :=
  ((List.range 8).reverse).map (fun i => hexDigitChar ((n >>> (4 * i)) % 16))

/-- Last index of character `c` in `s` (Python `s.rfind(c)`, `none` for -1). -/
def rfindChar (c : Char) (s : List Char) : Option Nat :=
  match s.reverse.findIdx? (fun d => d = c) with
  | none => none
  | some j => some (s.length - 1 - j)

/-- `os.path.basename` for the POSIX-style paths in scope: the part after the
last `'/'`. -/
def pyBasename (s : List Char) : List Char :=
  match rfindChar '/' s with
  | none => s
  | some i => s.drop (i + 1)

/-- Python `range(a, b)` over integers. -/
def pyRange (a b : Int) : List Int :=
  (List.range (b - a).toNat).map (fun i => a + Int.ofNat i)

/-- Python `range(a, b, s)` for a positive step `s` (the script only reaches the
stepped form with the truthy `cfg.layers` value; a non-positive step yields `[]`,
matching Python's empty range for a negative step here, and the `step = 0`
`ValueError` cannot be reached from `make`, which guards with `cfg.layers < channels`
after a truthiness test). -/
def pyRangeStep (a b s : Int) : List Int :=
  if s ≤ 0 then []
  else (List.range (((b - a).toNat + (s.toNat - 1)) / s.toNat)).map (fun i => a + s * Int.ofNat i)

/-- The Python exceptions the script can raise in the modelled fragment. -/
inductive PyErr where
  /-- `IndexError` from `str_cut.split()[0]` on an empty token list. -/
  | indexError
  /-- `ValueError` from `int(...)` on a non-numeric token. -/
  | valueError
  /-- `ValueError('Incorrect command result')` from `TxtpMaker.__init__`. -/
  | malformedReport
  /-- `ValueError('TXTP exists in path: ...')` from `TxtpMaker._write`. -/
  | txtpExists
deriving DecidableEq

/-- `TxtpMaker._get_string`: find the label, cut after it, and take either the
rest of the line stripped (`full=True`) or the first whitespace token
(`full=False`, where an empty token list raises `IndexError`). -/
def getStringE (out lbl : List Char) (full : Bool) : Except PyErr (Option (List Char)) :=
  match findSub lbl out with
  | none => .ok none
  | some i =>
    let cut := out.drop (i + lbl.length)
    if full then .ok (some (pyStrip (cut.takeWhile (fun c => c ≠ '\n'))))
    else
      match tokensWS cut with
      | [] => .error .indexError
      | t :: _ => .ok (some (pyStrip t))

/-- `TxtpMaker._get_text` (the `full=True` branch never raises). -/
def getText (out lbl : List Char) : Option (List Char) :=
  match getStringE out lbl true with
  | .ok v => v
  | .error _ => none

/-- `TxtpMaker._get_value`: absent label (or falsy empty result) yields 0,
otherwise the token is parsed with `int(...)`. -/
def getValueE (out lbl : List Char) : Except PyErr Int :=
  match getStringE out lbl false with
  | .error e => .error e
  | .ok none => .ok 0
  | .ok (some t) =>
    if t = [] then .ok 0
    else
      match pyInt? t with
      | some n => .ok n
      | none => .error .valueError

def lblChannels : List Char := strL "channels: "

def lblSampleRate : List Char := strL "sample rate: "

def lblTotalSamples : List Char := strL "stream total samples: "

def lblStreamCount : List Char := strL "stream count: "

def lblStreamIndex : List Char := strL "stream index: "

def lblStreamName : List Char := strL "stream name: "

/-- The metadata a `TxtpMaker` extracts from one report (`self.channels`,
`self.sample_rate`, `self.num_samples`, `self.stream_count`,
`self.stream_index`, `self.stream_name`). -/
structure Report where
  channels : Int
  sampleRate : Int
  numSamples : Int
  streamCount : Int
  streamIndex : Int
  streamName : Option (List Char)
deriving DecidableEq

/-- `TxtpMaker.__init__` on the decoded report text: `out` models
`self.output`, i.e. the process output after the upstream
`str(output_b).replace("\\r", "").replace("\\n", "\n")` decode step. Extract
the six fields in source order (each extraction may raise), then raise
`ValueError('Incorrect command result')` when `channels <= 0 or sample_rate <= 0`. -/
def mkReport (out : List Char) : Except PyErr Report :=
  match getValueE out lblChannels with
  | .error e => .error e
  | .ok ch =>
    match getValueE out lblSampleRate with
    | .error e => .error e
    | .ok sr =>
      match getValueE out lblTotalSamples with
      | .error e => .error e
      | .ok ns =>
        match getValueE out lblStreamCount with
        | .error e => .error e
        | .ok sc =>
          match getValueE out lblStreamIndex with
          | .error e => .error e
          | .ok si =>
            let sn := getText out lblStreamName
            if ch ≤ 0 ∨ sr ≤ 0 then .error .malformedReport
            else .ok ⟨ch, sr, ns, sc, si, sn⟩

/-- `self.stream_seconds = self.num_samples / self.sample_rate` (Python true
division; exact rationals model the values compared against the user's
`-fsm`/`-fsM` thresholds). -/
def streamSeconds (r : Report) : Rat := (r.numSamples : Rat) / (r.sampleRate : Rat)

/-- Regular expressions, covering the constructs the script's `-fni`/`-fne`
patterns use (literal characters, `.`, character classes, alternation,
concatenation, `*`; `+`/`?` are definable from these). A class with an empty
character list doubles as the empty language. -/
inductive RE where
  | eps
  | chr (c : Char)
  | anyc
  | cls (neg : Bool) (cs : List Char)
  | alt (a b : RE)
  | cat (a b : RE)
  | star (a : RE)
deriving DecidableEq

/-- Does the regex accept the empty string? -/
def nullable : RE → Bool
  | .eps => true
  | .chr _ => false
  | .anyc => false
  | .cls _ _ => false
  | .alt a b => nullable a || nullable b
  | .cat a b => nullable a && nullable b
  | .star _ => true

/-- Brzozowski derivative (`.` does not match a newline, as in Python's `re`
without `DOTALL`). -/
def deriv (r : RE) (c : Char) : RE :=
  match r with
  | .eps => .cls false []
  | .chr d => if c = d then .eps else .cls false []
  | .anyc => if c = '\n' then .cls false [] else .eps
  | .cls neg cs => if cs.contains c ≠ neg then .eps else .cls false []
  | .alt a b => .alt (deriv a c) (deriv b c)
  | .cat a b =>
    if nullable a then .alt (.cat (deriv a c) b) (deriv b c) else .cat (deriv a c) b
  | .star a => .cat (deriv a c) (.star a)

/-- Whole-string acceptance. -/
def matchFull (r : RE) (s : List Char) : Bool := nullable (s.foldl deriv r)

/-- Python `re.Pattern.match(s) is not None`: the pattern accepts some prefix of
`s` (anchored at the start, unlike `search`, and not required to consume all of
`s`, unlike `fullmatch`). -/
def reMatchB (r : RE) (s : List Char) : Bool :=
  (List.range (s.length + 1)).any (fun n => matchFull r (s.take n))

/-- Declarative form of start-anchored matching: some prefix of `s` is accepted. -/
def matchesStart (r : RE) (s : List Char) : Prop :=
  ∃ n, n ≤ s.length ∧ matchFull r (s.take n) = true

/-- The user configuration relevant to `TxtpMaker` (argparse `args`). Unset
optional values are `none`; a regex option is `none` when the pattern string is
unset or empty (both falsy in Python). -/
structure Cfg where
  base_name : Option (List Char)
  subdir : Option (List Char)
  zero_fill : Option Int
  no_internal_ext : Bool
  mini_txtp : Bool
  overwrite : Bool
  overwrite_rename : Bool
  layers : Option Int
  test_dupes : Bool
  min_channels : Option Int
  max_channels : Option Int
  min_sample_rate : Option Int
  max_sample_rate : Option Int
  min_seconds : Option Rat
  max_seconds : Option Rat
  min_subsongs : Option Int
  include_regex : Option RE
  exclude_regex : Option RE
  no_semicolon : Bool
deriving DecidableEq

/-- The all-defaults configuration (every option unset / false). -/
def cfgNone : Cfg :=
  ⟨none, none, none, false, false, false, false, none, false,
   none, none, none, none, none, none, none, none, none, false⟩

/-- Python truthiness of an optional integer (`None` and `0` are falsy). -/
def truthyInt : Option Int → Bool
  | none => false
  | some n => decide (n ≠ 0)

/-- Python truthiness of an optional float threshold (`None` and `0.0` falsy). -/
def truthyRat : Option Rat → Bool
  | none => false
  | some q => decide (q ≠ 0)

/-- Python truthiness of an optional string (`None` and `''` are falsy). -/
def truthyStr : Option (List Char) → Bool
  | none => false
  | some s => !s.isEmpty

/-- The `cfg.exclude_regex` test of `_is_ignorable`: only reached when the
pattern and the stream name are both truthy, then `re.match` anchored at the
start. -/
def excludeHit (cfg : Cfg) (r : Report) : Bool :=
  match cfg.exclude_regex, r.streamName with
  | some p, some n => !n.isEmpty && reMatchB p n
  | _, _ => false

/-- The `cfg.include_regex` test of `_is_ignorable`: only reached when the
pattern and the stream name are both truthy, ignorable when `re.match` fails. -/
def includeHit (cfg : Cfg) (r : Report) : Bool :=
  match cfg.include_regex, r.streamName with
  | some p, some n => !n.isEmpty && !reMatchB p n
  | _, _ => false

/-- `TxtpMaker._is_ignorable`: the chain of early-return tests, in source
order. -/
def isIgnorable (cfg : Cfg) (r : Report) : Bool :=
  truthyInt cfg.min_channels && decide (r.channels < (cfg.min_channels).getD 0)
  || truthyInt cfg.max_channels && decide (r.channels > (cfg.max_channels).getD 0)
  || truthyInt cfg.min_sample_rate && decide (r.sampleRate < (cfg.min_sample_rate).getD 0)
  || truthyInt cfg.max_sample_rate && decide (r.sampleRate > (cfg.max_sample_rate).getD 0)
  || truthyRat cfg.min_seconds && decide (streamSeconds r < (cfg.min_seconds).getD 0)
  || truthyRat cfg.max_seconds && decide (streamSeconds r > (cfg.max_seconds).getD 0)
  || truthyInt cfg.min_subsongs && decide (r.streamCount < (cfg.min_subsongs).getD 0)
  || excludeHit cfg r
  || includeHit cfg r

/-- The filter rules exactly as the specification words them: each configured
rule is independently sufficient, regex checks are start-anchored, and they are
skipped only when the stream name is absent (so a present-but-empty name is
still subject to them). -/
def specIgnorableClaim (cfg : Cfg) (r : Report) : Prop :=
  (∃ m, cfg.min_channels = some m ∧ m ≠ 0 ∧ r.channels < m) ∨
  (∃ m, cfg.max_channels = some m ∧ m ≠ 0 ∧ r.channels > m) ∨
  (∃ m, cfg.min_sample_rate = some m ∧ m ≠ 0 ∧ r.sampleRate < m) ∨
  (∃ m, cfg.max_sample_rate = some m ∧ m ≠ 0 ∧ r.sampleRate > m) ∨
  (∃ q, cfg.min_seconds = some q ∧ q ≠ 0 ∧ streamSeconds r < q) ∨
  (∃ q, cfg.max_seconds = some q ∧ q ≠ 0 ∧ streamSeconds r > q) ∨
  (∃ m, cfg.min_subsongs = some m ∧ m ≠ 0 ∧ r.streamCount < m) ∨
  (∃ p n, cfg.exclude_regex = some p ∧ r.streamName = some n ∧ matchesStart p n) ∨
  (∃ p n, cfg.include_regex = some p ∧ r.streamName = some n ∧ ¬ matchesStart p n)

/-- The same rules with the regex checks also skipped for a present-but-empty
stream name (Python truthiness), which is what the code implements. -/
def specIgnorableName (cfg : Cfg) (r : Report) : Prop :=
  (∃ m, cfg.min_channels = some m ∧ m ≠ 0 ∧ r.channels < m) ∨
  (∃ m, cfg.max_channels = some m ∧ m ≠ 0 ∧ r.channels > m) ∨
  (∃ m, cfg.min_sample_rate = some m ∧ m ≠ 0 ∧ r.sampleRate < m) ∨
  (∃ m, cfg.max_sample_rate = some m ∧ m ≠ 0 ∧ r.sampleRate > m) ∨
  (∃ q, cfg.min_seconds = some q ∧ q ≠ 0 ∧ streamSeconds r < q) ∨
  (∃ q, cfg.max_seconds = some q ∧ q ≠ 0 ∧ streamSeconds r > q) ∨
  (∃ m, cfg.min_subsongs = some m ∧ m ≠ 0 ∧ r.streamCount < m) ∨
  (∃ p n, cfg.exclude_regex = some p ∧ r.streamName = some n ∧ n ≠ [] ∧ matchesStart p n) ∨
  (∃ p n, cfg.include_regex = some p ∧ r.streamName = some n ∧ n ≠ [] ∧ ¬ matchesStart p n)

/-- The opening brace character of a `\x7bcmd\x7d` placeholder. -/
def braceL : Char := '\x7b'

/-- The closing brace character of a `\x7bcmd\x7d` placeholder. -/
def braceR : Char := '\x7d'

/-- Worker for `tagEnd`: scan for the closing bracket, accumulating content. -/
def tagEndGo (close : Char) (acc : List Char) : List Char → Option (List Char × List Char)
  | [] => none
  | c :: t =>
    if c = close then some (acc.reverse, t)
    else if c = '\n' then none
    else tagEndGo close (c :: acc) t

/-- The lazy tail of a `re` match of `open(.+?)close` starting right after the
opening bracket: the minimal nonempty run of non-newline characters followed by
the closing bracket; returns the captured content and the rest of the string. -/
def tagEnd (close : Char) : List Char → Option (List Char × List Char)
  | [] => none
  | c :: t => if c = '\n' then none else tagEndGo close [c] t

/-- Worker for `findTags` (fuelled; each step consumes at least one character,
so the subject's length is enough fuel). -/
def findTagsF (opn close : Char) : Nat → List Char → List (List Char)
  | 0, _ => []
  | _, [] => []
  | fuel + 1, c :: t =>
    if c = opn then
      match tagEnd close t with
      | some (content, rest) => content :: findTagsF opn close fuel rest
      | none => findTagsF opn close fuel t
    else findTagsF opn close fuel t

/-- Python `re.findall(r"open(.+?)close", s)`: the captured groups of the
non-overlapping, leftmost, lazy matches. -/
def findTags (opn close : Char) (s : List Char) : List (List Char) :=
  findTagsF opn close s.length s

/-- Lookup in the `replaces` dict of `TxtpMaker.make` (`none` when the key is
not a known variable; `some none` for a known variable whose value is Python
`None`). -/
def lookupRep (k : List Char) : List (List Char × Option (List Char)) →
    Option (Option (List Char))
  | [] => none
  | (k', v) :: t => if k = k' then some v else lookupRep k t

/-- The `replaces` dict of `TxtpMaker.make`: variable name to value, with
`internal_filename` falling back to the filename when the cleaned stream name
is falsy (`None` or empty). -/
def mkReplaces (fn : List Char) (index : Option (List Char))
    (sname : Option (List Char)) : List (List Char × Option (List Char)) :=
  let internal_filename :=
    match sname with
    | some s => if s = [] then fn else s
    | none => fn
  [(strL "fn", some fn), (strL "filename", some fn),
   (strL "ss", index), (strL "subsong", index),
   (strL "in", sname), (strL "internal-name", sname),
   (strL "if", some internal_filename)]

/-- The conditional-segment pass of `TxtpMaker.make`: for each `<...>` group
found in the original text (in order), keep its contents if any `\x7bcmd\x7d`
inside names a variable whose value is not `None`, else delete the whole
`<...>` occurrence; each edit rewrites the first occurrence in the current
text. -/
def resolveOptionals (reps : List (List Char × Option (List Char)))
    (txt : List Char) : List Char :=
  (findTags '<' '>' txt).foldl
    (fun txt opt =>
      let cmds := findTags braceL braceR opt
      let hasValues := cmds.any (fun cmd =>
        match lookupRep cmd reps with
        | some (some _) => true
        | _ => false)
      if hasValues then replaceFirst txt ('<' :: (opt ++ ['>'])) opt
      else replaceFirst txt ('<' :: (opt ++ ['>'])) [])
    txt

/-- The substitution pass of `TxtpMaker.make`: replace each known
`\x7bcmd\x7d` (first occurrence per found group, in order) by its value, using
the empty string for a `None` value and leaving unknown tokens untouched. -/
def resolveCmds (reps : List (List Char × Option (List Char)))
    (txt : List Char) : List Char :=
  (findTags braceL braceR txt).foldl
    (fun txt cmd =>
      match lookupRep cmd reps with
      | some v => replaceFirst txt (braceL :: (cmd ++ [braceR])) (v.getD [])
      | none => txt)
    txt

/-- The full template expansion of `TxtpMaker.make` (`cfg.base_name` branch). -/
def expandTemplate (reps : List (List Char × Option (List Char)))
    (txt : List Char) : List Char :=
  resolveCmds reps (resolveOptionals reps txt)

/-- The characters `_clean_stream_name` replaces with `'_'`. -/
def badChars : List Char := ['%', '*', '?', ':', '"', '|', '<', '>']

/-- `TxtpMaker._clean_stream_name`: `None` for a falsy stream name, else strip
any path prefix (last `'\'` then last `'/'`), replace bad characters, cut a
trailing extension unless `-ie`, and cut at the first `';'` (stripping) under
`-nsc`. -/
def cleanStreamName (cfg : Cfg) (sn : Option (List Char)) : Option (List Char) :=
  match sn with
  | none => none
  | some s =>
    if s = [] then none
    else
      let txt := s
      let txt := match rfindChar '\\' txt with
        | none => txt
        | some i => txt.drop (i + 1)
      let txt := match rfindChar '/' txt with
        | none => txt
        | some i => txt.drop (i + 1)
      let txt := badChars.foldl (fun txt bc => replaceAll [bc] ['_'] txt) txt
      let txt := if !cfg.no_internal_ext then
          match rfindChar '.' txt with
          | some i => txt.take i
          | none => txt
        else txt
      let txt := if cfg.no_semicolon then
          match findSub [';'] txt with
          | some i => pyStrip (txt.take i)
          | none => txt
        else txt
      some txt

/-- `TxtpMaker._get_stream_mask`: the `#C`-prefixed comma-joined channel list
for the layer starting at channel offset `layer`, with the source's windowing
(`loops = channels - layers` for the final partial layer, else `layers + 1`)
and the trailing `mask[:-1]` cut. -/
def getStreamMask (cfg : Cfg) (channels : Int) (layer : Int) : List Char :=
  let layers := (cfg.layers).getD 0
  let loops := if layer + layers > channels then channels - layers else layers + 1
  let mask := (pyRange 1 loops).foldl (fun m ch => m ++ intStr (layer + ch) ++ [',']) (strL "#C")
  mask.dropLast

/-- The mutable state `TxtpMaker._write` touches: the run's `rename_map` and
the set of paths that exist on disk (`os.path.exists` / files created). -/
structure WriteSt where
  renameMap : List (List Char × Nat)
  files : List (List Char)
deriving DecidableEq

/-- `os.path.exists` over the modelled filesystem. -/
def pathExists (st : WriteSt) (p : List Char) : Bool := st.files.contains p

/-- Dict lookup for the rename ledger. -/
def lookupNat (k : List Char) : List (List Char × Nat) → Option Nat
  | [] => none
  | (k', v) :: t => if k = k' then some v else lookupNat k t

/-- Dict store for the rename ledger. -/
def insertNat (k : List Char) (v : Nat) : List (List Char × Nat) → List (List Char × Nat)
  | [] => [(k, v)]
  | (k', v') :: t => if k = k' then (k, v) :: t else (k', v') :: insertNat k v t

/-- `TxtpMaker._write`: append `.txtp`; under `-O` with a colliding path, read
the ledger counter (0 when absent), store counter+1, and rewrite every
`.txtp` occurrence in the name to `_%08i.txtp` with the old counter; then fail
with `ValueError` when the (possibly renamed) path exists and `-o` is not set;
otherwise create the file. Returns the path actually written. -/
def writeTxtp (cfg : Cfg) (st : WriteSt) (outname line : List Char) :
    Except PyErr (WriteSt × List Char) :=
  let _ := line
  let outname := outname ++ strL ".txtp"
  let withRename :=
    if cfg.overwrite_rename && pathExists st outname then
      let cnt := (lookupNat outname st.renameMap).getD 0
      let st' := { st with renameMap := insertNat outname (cnt + 1) st.renameMap }
      (replaceAll (strL ".txtp") (strL "_" ++ pyZfill 8 (natDec cnt) ++ strL ".txtp") outname, st')
    else (outname, st)
  let outname := withRename.1
  let st := withRename.2
  if !cfg.overwrite && pathExists st outname then .error .txtpExists
  else .ok ({ st with files := st.files ++ [outname] }, outname)

/-- Sequential `_write` calls inside one `make` invocation; an exception aborts
the remaining writes (as the Python exception would). Returns the written
`(path, content)` pairs. -/
def writeMany (cfg : Cfg) : WriteSt → List (List Char × List Char) →
    Except PyErr (WriteSt × List (List Char × List Char))
  | st, [] => .ok (st, [])
  | st, (name, content) :: t =>
    match writeTxtp cfg st name content with
    | .error e => .error e
    | .ok (st', written) =>
      match writeMany cfg st' t with
      | .error e => .error e
      | .ok (st'', rest) => .ok (st'', (written, content) :: rest)

/-- The subsong index text of `TxtpMaker.make`: `None` when the file has at
most one stream, else `str(stream_index)` zero-filled to the configured width,
or to the digit length of `str(stream_count)` when the width is unset or
negative. -/
def subsongIndex (cfg : Cfg) (r : Report) : Option (List Char) :=
  if r.streamCount ≤ 1 then none
  else
    let index := intStr r.streamIndex
    match cfg.zero_fill with
    | none => some (pyZfill (intStr r.streamCount).length index)
    | some z =>
      if z < 0 then some (pyZfill (intStr r.streamCount).length index)
      else some (pyZfill z.toNat index)

/-- The extension cut of `TxtpMaker.make` on the basename: remove from the
last `'.'` only when its index is at least 2. -/
def pyStem (filename_base : List Char) : List Char :=
  match rfindChar '.' filename_base with
  | some i => if i > 1 then filename_base.take i else filename_base
  | none => filename_base

/-- The `cfg.base_name` template result of `TxtpMaker.make` (empty when no
template is configured, mirroring the `outname = ''` initialisation). -/
def templateOutname (cfg : Cfg) (r : Report) (filename_base : List Char)
    (index : Option (List Char)) : List Char :=
  if truthyStr cfg.base_name then
    let stream_name := cleanStreamName cfg r.streamName
    expandTemplate (mkReplaces filename_base index stream_name) ((cfg.base_name).getD [])
  else []

/-- `TxtpMaker.make`: returns the updated write state and the list of
descriptors written (`(path, content)`), whose length is the returned
`total_done`. -/
def make (cfg : Cfg) (r : Report) (filename_path filename_clean : List Char)
    (st : WriteSt) : Except PyErr (WriteSt × List (List Char × List Char)) :=
  if isIgnorable cfg r then .ok (st, [])
  else
    let index := subsongIndex cfg r
    if cfg.mini_txtp then
      let outname := match index with
        | some i => filename_path ++ strL "#" ++ i
        | none => filename_path
      if truthyInt cfg.layers && decide ((cfg.layers).getD 0 < r.channels) then
        writeMany cfg st ((pyRangeStep 0 r.channels ((cfg.layers).getD 0)).map
          (fun layer => (outname ++ getStreamMask cfg r.channels layer, ([] : List Char))))
      else writeMany cfg st [(outname, [])]
    else
      let filename_base := pyStem (pyBasename filename_path)
      let outname0 := templateOutname cfg r filename_base index
      let outname :=
        if outname0 = [] then
          match index with
          | some i => filename_base ++ strL "_" ++ i
          | none => filename_base
        else outname0
      let line := (if truthyStr cfg.subdir then (cfg.subdir).getD [] else []) ++ filename_clean
      let line := match index with
        | some i => line ++ strL "#" ++ i
        | none => line
      if truthyInt cfg.layers && decide ((cfg.layers).getD 0 < r.channels) then
        writeMany cfg st (((pyRangeStep 0 r.channels ((cfg.layers).getD 0)).enum).map
          (fun p => (outname ++ [Char.ofNat ('a'.toNat + p.1)],
                     line ++ getStreamMask cfg r.channels p.2)))
      else writeMany cfg st [(outname, line)]

/-- One bit step of the zlib CRC-32 computation (reflected polynomial
`0xEDB88320`). -/
def crcBit (c : Nat) : Nat := if c % 2 = 1 then (c / 2) ^^^ 0xEDB88320 else c / 2

/-- One byte step of the zlib CRC-32 computation. -/
def crcByte (c b : Nat) : Nat := crcBit^[8] (c ^^^ b)

/-- `zlib.crc32(data, start)`: pre/post conditioned CRC-32 over the bytes. -/
def crc32zlib (start : Nat) (data : List Nat) : Nat :=
  (data.foldl crcByte (start ^^^ 0xFFFFFFFF)) ^^^ 0xFFFFFFFF

/-- The successive `file.read(0x8000)` chunks of `Cr32Helper.get_crc32`
(fuelled; the data's length is enough fuel since `bufSize` is positive). -/
def chunksF (bufSize : Nat) : Nat → List Nat → List (List Nat)
  | 0, _ => []
  | _, [] => []
  | fuel + 1, data => data.take bufSize :: chunksF bufSize fuel (data.drop bufSize)

/-- `Cr32Helper.get_crc32`: fold `zlib.crc32` over 0x8000-byte chunks starting
from 0, masked to 32 bits. -/
def getCrc32 (data : List Nat) : Nat :=
  ((chunksF 0x8000 data.length data).foldl (fun c buf => crc32zlib c buf) 0) &&& 0xFFFFFFFF

/-- The state of `Cr32Helper`: `self.crc32_map` (a dict used as a set of hex
checksum strings, kept in insertion order) and `self.last_dupe`. -/
structure CrcSt where
  crc32Map : List (List Char)
  lastDupe : Bool
deriving DecidableEq

/-- `Cr32Helper.update`: reset `last_dupe`; return early when duplicate
testing is off or the path does not exist (`fs` maps an existing path to its
byte content); otherwise test/insert the 8-digit hex checksum string. -/
def crcUpdate (cfg : Cfg) (st : CrcSt) (fs : List Char → Option (List Nat))
    (filename : List Char) : CrcSt :=
  let st := { st with lastDupe := false }
  if cfg.test_dupes = false then st
  else
    match fs filename with
    | none => st
    | some data =>
      let s := hex8 (getCrc32 data)
      if st.crc32Map.contains s then { st with lastDupe := true }
      else { st with crc32Map := st.crc32Map ++ [s] }

/-- One iteration of the subsong loop of `App.start`, after the report has been
constructed: update the checksum helper only for non-ignorable reports, then
either hand the report to `make` (when `is_last_dupe()` is false) or count a
dupe. Returns the new checksum state, write state, the increments of the
`created` and `dupes` counters, and whether `make` was invoked. -/
def appStep (cfg : Cfg) (fs : List Char → Option (List Nat)) (crc : CrcSt)
    (wst : WriteSt) (r : Report) (filename_in_base filename_in_clean filename_out : List Char) :
    Except PyErr (CrcSt × WriteSt × Nat × Nat × Bool) :=
  let crc := if !isIgnorable cfg r then crcUpdate cfg crc fs filename_out else crc
  if !crc.lastDupe then
    match make cfg r filename_in_base filename_in_clean wst with
    | .error e => .error e
    | .ok (wst', ds) => .ok (crc, wst', ds.length, 0, true)
  else .ok (crc, wst, 0, 1, false)

/-- Comma-joined rendering of a list of tokens (the specification's
"comma-joined list of indices"). -/
def commaJoin : List (List Char) → List Char
  | [] => []
  | [x] => x
  | x :: t => x ++ [','] ++ commaJoin t

/-- The claim-side channel-mask token: `#C` followed by the comma-joined
channel indices. -/
def maskClaim (idxs : List Int) : List Char :=
  strL "#C" ++ commaJoin (idxs.map intStr)

/-- Fixture: the default configuration with only an include regex set. -/
def cfgC2 : Cfg := { cfgNone with include_regex := some (RE.chr 'a') }

/-- Fixture: a well-formed report whose stream name is present but empty
(producible from a report text whose `stream name: ` line is blank). -/
def rC2 : Report := ⟨1, 2, 0, 0, 0, some []⟩

/-- Fixture: mini-txtp mode with 2-channel layers and overwrite allowed. -/
def cfgC4 : Cfg := { cfgNone with mini_txtp := true, overwrite := true, layers := some 2 }

/-- Fixture: a 6-channel single-subsong report. -/
def rC4 : Report := ⟨6, 48000, 0, 1, 0, none⟩

/-- Fixture: the rename-on-collision configuration (`-O`). -/
def cfgR : Cfg := { cfgNone with overwrite_rename := true }

/-- Fixture: duplicate testing enabled (`-fd`). -/
def cfgDupes : Cfg := { cfgNone with test_dupes := true }

/-- Fixture: a filesystem holding the same three bytes at two paths. -/
def fsW : List Char → Option (List Nat) :=
  fun p => if p = strL "p1" ∨ p = strL "p2" then some [1, 2, 3] else none

theorem reMatchB_iff (p : RE) (s : List Char) : reMatchB p s = true ↔ matchesStart p s := by
  unfold reMatchB matchesStart
  rw [List.any_eq_true]
  constructor
  · rintro ⟨n, hn, hm⟩
    exact ⟨n, Nat.lt_succ_iff.mp (List.mem_range.mp hn), hm⟩
  · rintro ⟨n, hn, hm⟩
    exact ⟨n, List.mem_range.mpr (Nat.lt_succ_iff.mpr hn), hm⟩

theorem reMatchB_false_iff (p : RE) (s : List Char) :
    reMatchB p s = false ↔ ¬ matchesStart p s := by
  rw [← reMatchB_iff p s]
  cases reMatchB p s <;> simp

theorem optIntRule (o : Option Int) (p : Int → Prop) [DecidablePred p] :
    (truthyInt o && decide (p (o.getD 0))) = true ↔ ∃ m, o = some m ∧ m ≠ 0 ∧ p m := by
  cases o with
  | none => simp [truthyInt]
  | some m => simp [truthyInt]

theorem optRatRule (o : Option Rat) (p : Rat → Prop) [DecidablePred p] :
    (truthyRat o && decide (p (o.getD 0))) = true ↔ ∃ q, o = some q ∧ q ≠ 0 ∧ p q := by
  cases o with
  | none => simp [truthyRat]
  | some q => simp [truthyRat]

theorem excludeHit_iff (cfg : Cfg) (r : Report) :
    excludeHit cfg r = true ↔
      ∃ p n, cfg.exclude_regex = some p ∧ r.streamName = some n ∧ n ≠ [] ∧ matchesStart p n := by
  unfold excludeHit
  cases cfg.exclude_regex with
  | none => simp
  | some p =>
    cases r.streamName with
    | none => simp
    | some n => simp [reMatchB_iff]

theorem includeHit_iff (cfg : Cfg) (r : Report) :
    includeHit cfg r = true ↔
      ∃ p n, cfg.include_regex = some p ∧ r.streamName = some n ∧ n ≠ [] ∧ ¬ matchesStart p n := by
  unfold includeHit
  cases cfg.include_regex with
  | none => simp
  | some p =>
    cases r.streamName with
    | none => simp
    | some n => simp [← reMatchB_false_iff, Bool.not_eq_true']

theorem isIgnorable_iff (cfg : Cfg) (r : Report) :
    isIgnorable cfg r = true ↔ specIgnorableName cfg r := by
  unfold isIgnorable specIgnorableName
  simp only [Bool.or_eq_true, optIntRule, optRatRule, excludeHit_iff, includeHit_iff, or_assoc]

theorem isPrefixL_append_self (l w : List Char) : isPrefixL l (l ++ w) = true := by
  induction l with
  | nil => rfl
  | cons c t ih => simp [isPrefixL, ih]

theorem findSub_append_self (pat w : List Char) (h : pat ≠ []) :
    findSub pat (pat ++ w) = some 0 := by
  cases pat with
  | nil => exact absurd rfl h
  | cons c t =>
    have hpre := isPrefixL_append_self (c :: t) w
    rw [List.cons_append] at hpre
    rw [List.cons_append]
    simp [findSub, hpre]

theorem tokensGo_of_all_space (w : List Char) (hw : ∀ c ∈ w, isPySpace c = true) :
    tokensGo w [] = [] := by
  induction w with
  | nil => rfl
  | cons c t ih =>
    have hc := hw c (List.mem_cons_self c t)
    have ht : ∀ d ∈ t, isPySpace d = true := fun d hd => hw d (List.mem_cons_of_mem c hd)
    simp [tokensGo, hc, ih ht]

theorem tokensWS_of_all_space (w : List Char) (hw : ∀ c ∈ w, isPySpace c = true) :
    tokensWS w = [] := tokensGo_of_all_space w hw

/-- **C1**: for report texts on which all five numeric extractions are
well-defined, constructing a `TxtpMaker` succeeds exactly when the extracted
channel count and sample rate are both positive; a successful construction
carries those extracted values, a failed check raises the malformed-report
`ValueError` (producing no report), and in particular a text without the
`channels: ` label (whose extraction yields 0) fails with the malformed-report
error. -/
theorem c1_report_construction (out : List Char) (ch sr ns sc si : Int)
    (hch : getValueE out lblChannels = .ok ch)
    (hsr : getValueE out lblSampleRate = .ok sr)
    (hns : getValueE out lblTotalSamples = .ok ns)
    (hsc : getValueE out lblStreamCount = .ok sc)
    (hsi : getValueE out lblStreamIndex = .ok si) :
    ((∃ rep, mkReport out = .ok rep) ↔ 0 < ch ∧ 0 < sr)
    ∧ (∀ rep, mkReport out = .ok rep → rep.channels = ch ∧ rep.sampleRate = sr)
    ∧ (¬(0 < ch ∧ 0 < sr) → mkReport out = .error .malformedReport)
    ∧ (findSub lblChannels out = none → mkReport out = .error .malformedReport) := by
  have key : mkReport out =
      if ch ≤ 0 ∨ sr ≤ 0 then .error .malformedReport
      else .ok ⟨ch, sr, ns, sc, si, getText out lblStreamName⟩ := by
    simp [mkReport, hch, hsr, hns, hsc, hsi]
  by_cases hcond : ch ≤ 0 ∨ sr ≤ 0
  · rw [if_pos hcond] at key
    refine ⟨?_, ?_, fun _ => key, fun _ => key⟩
    · simp [key]
      omega
    · intro rep hrep
      rw [key] at hrep
      exact absurd hrep (by simp)
  · rw [if_neg hcond] at key
    have hpos : 0 < ch ∧ 0 < sr := by omega
    refine ⟨⟨fun _ => hpos, fun _ => ⟨_, key⟩⟩, ?_, fun hno => absurd hpos hno, ?_⟩
    · intro rep hrep
      rw [key] at hrep
      obtain rfl : (⟨ch, sr, ns, sc, si, getText out lblStreamName⟩ : Report) = rep := by
        simpa using hrep
      exact ⟨rfl, rfl⟩
    · intro hnone
      have h0 : getValueE out lblChannels = .ok 0 := by
        simp [getValueE, getStringE, hnone]
      rw [hch] at h0
      have hc0 : ch = 0 := by simpa using h0
      exact absurd (Or.inl (le_of_eq hc0)) hcond

theorem c1_witness :
    ((∃ rep, mkReport (strL "channels: 2\nsample rate: 44100\nstream count: 1\n") = .ok rep)
        ↔ 0 < (2 : Int) ∧ 0 < (44100 : Int))
    ∧ (∀ rep, mkReport (strL "channels: 2\nsample rate: 44100\nstream count: 1\n") = .ok rep →
        rep.channels = 2 ∧ rep.sampleRate = 44100)
    ∧ (¬(0 < (2 : Int) ∧ 0 < (44100 : Int)) →
        mkReport (strL "channels: 2\nsample rate: 44100\nstream count: 1\n")
          = .error .malformedReport)
    ∧ (findSub lblChannels (strL "channels: 2\nsample rate: 44100\nstream count: 1\n") = none →
        mkReport (strL "channels: 2\nsample rate: 44100\nstream count: 1\n")
          = .error .malformedReport) :=
  c1_report_construction (strL "channels: 2\nsample rate: 44100\nstream count: 1\n")
    2 44100 0 1 0 rfl rfl rfl rfl rfl

/-- **C10**: when the `channels: ` label occurs but only whitespace (or
nothing) follows it, `_get_value` raises the out-of-range `IndexError` from
`split()[0]` — not 0 and not the malformed-report `ValueError` — and
construction propagates that `IndexError`. -/
theorem c10_whitespace_after_label (w : List Char) (hw : ∀ c ∈ w, isPySpace c = true) :
    getValueE (lblChannels ++ w) lblChannels = .error .indexError
    ∧ mkReport (lblChannels ++ w) = .error .indexError := by
  have hfind : findSub lblChannels (lblChannels ++ w) = some 0 :=
    findSub_append_self lblChannels w (by decide)
  have hget : getStringE (lblChannels ++ w) lblChannels false = .error .indexError := by
    simp [getStringE, hfind, List.drop_left, tokensWS_of_all_space w hw]
  have hval : getValueE (lblChannels ++ w) lblChannels = .error .indexError := by
    simp [getValueE, hget]
  exact ⟨hval, by simp [mkReport, hval]⟩

theorem c10_witness :
    getValueE (lblChannels ++ strL " \t") lblChannels = .error .indexError
    ∧ mkReport (lblChannels ++ strL " \t") = .error .indexError :=
  c10_whitespace_after_label (strL " \t") (by decide)

/-- **C2** (amended): the filter evaluator is a pure function of report and
configuration, and a report is ignorable exactly when one of the configured
rules fires (channels/sample-rate/duration/subsong thresholds, start-anchored
exclude regex match, or configured include regex failing to match), where both
regex checks are skipped when the stream name is absent *or empty* (the code
tests Python truthiness of the name, so a present-but-empty name also skips
them). -/
theorem c2_filter_rules (cfg : Cfg) (r : Report) :
    isIgnorable cfg r = true ↔ specIgnorableName cfg r :=
  isIgnorable_iff cfg r

/-- **C2** counterexample: a report with a present-but-empty stream name and a
configured include regex is *not* ignorable, although the claim's rules (which
skip the regex checks only for an absent name) say it is; the report is
reachable from a report text with a blank `stream name: ` line. -/
theorem c2_counterexample :
    mkReport (strL "channels: 1\nsample rate: 2\nstream name: \nx") = .ok rC2
    ∧ ¬ (isIgnorable cfgC2 rC2 = true ↔ specIgnorableClaim cfgC2 rC2) := by
  refine ⟨rfl, fun hiff => ?_⟩
  have hspec : specIgnorableClaim cfgC2 rC2 := by
    refine Or.inr (Or.inr (Or.inr (Or.inr (Or.inr (Or.inr (Or.inr (Or.inr ?_)))))))
    exact ⟨RE.chr 'a', [], rfl, rfl, (reMatchB_false_iff (RE.chr 'a') []).mp (by decide)⟩
  have hfalse : isIgnorable cfgC2 rC2 = false := by decide
  rw [hiff.mpr hspec] at hfalse
  exact Bool.noConfusion hfalse

/-- **C8**: with every other configuration field held fixed, the ignorable
verdict is monotone in a configured `min_channels` threshold (`1 ≤ m ≤ m'`),
and any threshold strictly above the report's channel count makes the report
ignorable. -/
theorem c8_min_channels_monotone (cfg : Cfg) (r : Report) (m m' : Int)
    (h1 : 1 ≤ m) (h2 : m ≤ m') :
    (isIgnorable { cfg with min_channels := some m } r = true →
      isIgnorable { cfg with min_channels := some m' } r = true)
    ∧ (r.channels < m' →
      isIgnorable { cfg with min_channels := some m' } r = true) := by
  constructor
  · intro h
    rw [isIgnorable_iff] at h ⊢
    rcases h with h | hrest
    · obtain ⟨k, hk, hk0, hlt⟩ := h
      have hkm : some m = some k := hk
      have hkm' : m = k := by simpa using hkm
      exact Or.inl ⟨m', rfl, by omega, by omega⟩
    · exact Or.inr hrest
  · intro hlt
    rw [isIgnorable_iff]
    exact Or.inl ⟨m', rfl, by omega, hlt⟩

theorem c8_witness :
    isIgnorable { cfgNone with min_channels := some 3 } ⟨2, 44100, 88200, 3, 2, none⟩ = true :=
  (c8_min_channels_monotone cfgNone ⟨2, 44100, 88200, 3, 2, none⟩ 2 3 (by decide) (by decide)).2
    (by decide)

/-- **C3**: the template expander resolves `<...>` segments (kept with
brackets stripped when any `\x7bcmd\x7d` inside has a defined value, removed
entirely otherwise) and then substitutes `\x7bcmd\x7d` placeholders (empty
string for known-but-absent variables, unknown tokens untouched): `<\x7bss\x7d>`
expands to the index text when present and to the empty string when absent,
`a<b\x7bss\x7d>c` expands to `ab` ++ index ++ `c` when present and to `ac` when
absent, and one defined variable suffices to keep a segment with several. -/
theorem c3_template_expansion (fn v : List Char) (sn : Option (List Char)) :
    (expandTemplate (mkReplaces fn (some v) sn) (strL "<\x7bss\x7d>") = v)
    ∧ (expandTemplate (mkReplaces fn none sn) (strL "<\x7bss\x7d>") = [])
    ∧ (expandTemplate (mkReplaces fn (some v) sn) (strL "a<b\x7bss\x7d>c")
        = strL "ab" ++ v ++ strL "c")
    ∧ (expandTemplate (mkReplaces fn none sn) (strL "a<b\x7bss\x7d>c") = strL "ac")
    ∧ (expandTemplate (mkReplaces fn none sn) (strL "\x7bzz\x7d") = strL "\x7bzz\x7d")
    ∧ (expandTemplate (mkReplaces fn none sn) (strL "\x7bss\x7d") = [])
    ∧ (expandTemplate (mkReplaces fn none (some (strL "NM"))) (strL "<x\x7bin\x7dy\x7bss\x7dz>")
        = strL "xNMyz") :=
  ⟨List.append_nil v, rfl, rfl, rfl, rfl, rfl, rfl⟩

theorem foldl_comma_dropLast (f : Int → List Char) (c : Int) (t : List Int) (pre : List Char) :
    ((c :: t).foldl (fun m x => m ++ f x ++ [',']) pre).dropLast
      = pre ++ commaJoin ((c :: t).map f) := by
  induction t generalizing c pre with
  | nil =>
    simp only [List.foldl_cons, List.foldl_nil, List.map_cons, List.map_nil, commaJoin]
    rw [List.dropLast_concat]
  | cons d t' ih =>
    rw [List.foldl_cons, ih d (pre ++ f c ++ [','])]
    simp [commaJoin, List.append_assoc]

theorem foldl_comma_dropLast' (f : Int → List Char) (l : List Int) (pre : List Char)
    (h : l ≠ []) :
    (l.foldl (fun m x => m ++ f x ++ [',']) pre).dropLast = pre ++ commaJoin (l.map f) := by
  obtain ⟨c, t, rfl⟩ := List.exists_cons_of_ne_nil h
  exact foldl_comma_dropLast f c t pre

theorem pyRange_shift (L n : Int) :
    (pyRange 1 n).map (fun ch => L + ch) = pyRange (L + 1) (L + n) := by
  unfold pyRange
  rw [List.map_map]
  have he : L + n - (L + 1) = n - 1 := by ring
  rw [he]
  apply List.map_congr_left
  intro i _
  simp [Function.comp]
  ring

theorem writeMany_plain (cfg : Cfg) (ho : cfg.overwrite = true)
    (hor : cfg.overwrite_rename = false) :
    ∀ (items : List (List Char × List Char)) (st : WriteSt),
      ∃ files', writeMany cfg st items
        = .ok (⟨st.renameMap, files'⟩, items.map (fun p => (p.1 ++ strL ".txtp", p.2))) := by
  intro items
  induction items with
  | nil => exact fun st => ⟨st.files, rfl⟩
  | cons p t ih =>
    intro st
    obtain ⟨name, content⟩ := p
    have hw : writeTxtp cfg st name content
        = .ok ({ st with files := st.files ++ [name ++ strL ".txtp"] }, name ++ strL ".txtp") := by
      simp [writeTxtp, hor, ho]
    obtain ⟨files', hf⟩ := ih { st with files := st.files ++ [name ++ strL ".txtp"] }
    refine ⟨files', ?_⟩
    simp [writeMany, hw, hf]

/-- **C4**: with layer splitting configured (`1 ≤ layersize < channels`) the
mask for a full layer at offset `L` lists channels `L+1 … L+layersize`, the
final partial layer is windowed from `channels - layersize` slots (listing
`L+1 … L+(channels-layersize)-1`) rather than the true remainder, and mini
mode writes one descriptor per layer offset `0, layersize, 2·layersize, …`
below the channel count, named with the layer's mask token. -/
theorem c4_channel_layers (cfg : Cfg) (r : Report) (c ls : Int) (path clean : List Char)
    (rm : List (List Char × Nat))
    (hls : cfg.layers = some ls) (h1 : 1 ≤ ls) (h2 : ls < c) :
    (∀ L : Int, L + ls ≤ c →
      getStreamMask cfg c L = maskClaim (pyRange (L + 1) (L + ls + 1)))
    ∧ (∀ L : Int, c < L + ls → 2 ≤ c - ls →
      getStreamMask cfg c L = maskClaim (pyRange (L + 1) (L + (c - ls))))
    ∧ (cfg.mini_txtp = true → cfg.overwrite = true → cfg.overwrite_rename = false →
      isIgnorable cfg r = false → r.streamCount ≤ 1 → r.channels = c →
      ∃ st', make cfg r path clean ⟨rm, []⟩
        = .ok (st', (pyRangeStep 0 c ls).map
            (fun L => ((path ++ getStreamMask cfg c L) ++ strL ".txtp", ([] : List Char))))) := by
  refine ⟨?_, ?_, ?_⟩
  · intro L hL
    have hne : pyRange 1 (ls + 1) ≠ [] := by
      unfold pyRange
      intro hcon
      have hlen := congrArg List.length hcon
      rw [List.length_map, List.length_range, List.length_nil] at hlen
      omega
    simp only [getStreamMask, maskClaim, hls, Option.getD_some]
    rw [if_neg (show ¬ L + ls > c by omega)]
    rw [foldl_comma_dropLast' (fun x => intStr (L + x)) (pyRange 1 (ls + 1)) (strL "#C") hne]
    rw [show L + ls + 1 = L + (ls + 1) by ring, ← pyRange_shift, List.map_map]
    simp only [Function.comp_def]
  · intro L hL hrem
    have hne : pyRange 1 (c - ls) ≠ [] := by
      unfold pyRange
      intro hcon
      have hlen := congrArg List.length hcon
      rw [List.length_map, List.length_range, List.length_nil] at hlen
      omega
    simp only [getStreamMask, maskClaim, hls, Option.getD_some]
    rw [if_pos (show L + ls > c by omega)]
    rw [foldl_comma_dropLast' (fun x => intStr (L + x)) (pyRange 1 (c - ls)) (strL "#C") hne]
    rw [← pyRange_shift, List.map_map]
    simp only [Function.comp_def]
  · intro hm ho hor hig hsc hcc
    have hidx : subsongIndex cfg r = none := by simp [subsongIndex, hsc]
    have hg : (truthyInt cfg.layers && decide ((cfg.layers).getD 0 < r.channels)) = true := by
      rw [hls, hcc]
      simp only [truthyInt, Option.getD_some, Bool.and_eq_true, decide_eq_true_eq]
      omega
    obtain ⟨files', hw⟩ := writeMany_plain cfg ho hor
      ((pyRangeStep 0 r.channels ((cfg.layers).getD 0)).map
        (fun layer => (path ++ getStreamMask cfg r.channels layer, ([] : List Char))))
      ⟨rm, []⟩
    refine ⟨⟨rm, files'⟩, ?_⟩
    simp only [make, hig, hm, hidx, hg, Bool.false_eq_true, if_false, if_true]
    rw [hw]
    simp [List.map_map, Function.comp, hls, hcc]

theorem c4_witness :
    (getStreamMask cfgC4 6 0 = maskClaim (pyRange 1 3))
    ∧ (∃ st', make cfgC4 rC4 (strL "song.fsb") (strL "song.fsb") ⟨[], []⟩
        = .ok (st', [(strL "song.fsb#C1,2.txtp", ([] : List Char)),
                     (strL "song.fsb#C3,4.txtp", ([] : List Char)),
                     (strL "song.fsb#C5,6.txtp", ([] : List Char))])) := by
  have h := c4_channel_layers cfgC4 rC4 6 2 (strL "song.fsb") (strL "song.fsb") []
    rfl (by decide) (by decide)
  refine ⟨h.1 0 (by decide), ?_⟩
  obtain ⟨st', hst⟩ := h.2.2 rfl rfl rfl (by decide) (by decide) rfl
  refine ⟨st', ?_⟩
  rw [hst]
  rfl

/-- **C5** (amended): under the `-O` rename policy, a collision at
`base.txtp` reads that exact path's ledger counter (0 when absent), stores the
incremented counter, and splices the old counter as an 8-digit zero-padded
token at each `.txtp` occurrence in the name (the extension position, when the
base name contains no other `.txtp` substring); three successive writes to the
same colliding base produce the counter values 0, 1, 2, each 8-digit
zero-padded. -/
theorem c5_rename_on_collision (cfg : Cfg) (st : WriteSt) (base line : List Char)
    (hpol : cfg.overwrite_rename = true)
    (hex : pathExists st (base ++ strL ".txtp") = true) :
    (writeTxtp cfg st base line =
      (let p := base ++ strL ".txtp"
       let cnt := (lookupNat p st.renameMap).getD 0
       let newname := replaceAll (strL ".txtp")
         (strL "_" ++ pyZfill 8 (natDec cnt) ++ strL ".txtp") p
       let st' : WriteSt := ⟨insertNat p (cnt + 1) st.renameMap, st.files⟩
       if !cfg.overwrite && pathExists st' newname then .error .txtpExists
       else .ok (⟨st'.renameMap, st'.files ++ [newname]⟩, newname)))
    ∧ (writeTxtp cfgR ⟨[], [strL "foo.txtp"]⟩ (strL "foo") []
        = .ok (⟨[(strL "foo.txtp", 1)], [strL "foo.txtp", strL "foo_00000000.txtp"]⟩,
               strL "foo_00000000.txtp"))
    ∧ (writeTxtp cfgR ⟨[(strL "foo.txtp", 1)], [strL "foo.txtp", strL "foo_00000000.txtp"]⟩
        (strL "foo") []
        = .ok (⟨[(strL "foo.txtp", 2)],
                [strL "foo.txtp", strL "foo_00000000.txtp", strL "foo_00000001.txtp"]⟩,
               strL "foo_00000001.txtp"))
    ∧ (writeTxtp cfgR ⟨[(strL "foo.txtp", 2)],
          [strL "foo.txtp", strL "foo_00000000.txtp", strL "foo_00000001.txtp"]⟩
        (strL "foo") []
        = .ok (⟨[(strL "foo.txtp", 3)],
                [strL "foo.txtp", strL "foo_00000000.txtp", strL "foo_00000001.txtp",
                 strL "foo_00000002.txtp"]⟩,
               strL "foo_00000002.txtp")) := by
  refine ⟨?_, rfl, rfl, rfl⟩
  simp [writeTxtp, hpol, hex]

theorem c5_witness :
    writeTxtp cfgR ⟨[], [strL "foo.txtp"]⟩ (strL "foo") []
      = .ok (⟨[(strL "foo.txtp", 1)], [strL "foo.txtp", strL "foo_00000000.txtp"]⟩,
             strL "foo_00000000.txtp") :=
  (c5_rename_on_collision cfgR ⟨[], [strL "foo.txtp"]⟩ (strL "foo") [] rfl rfl).2.1

/-- **C5** counterexample: when the base name itself contains `.txtp`, the
rename splices the counter at *every* `.txtp` occurrence (Python `str.replace`
with no count), not only at the extension position as the claim states. -/
theorem c5_counterexample :
    writeTxtp cfgR ⟨[], [strL "a.txtp_b.txtp"]⟩ (strL "a.txtp_b") []
      = .ok (⟨[(strL "a.txtp_b.txtp", 1)],
              [strL "a.txtp_b.txtp", strL "a_00000000.txtp_b_00000000.txtp"]⟩,
             strL "a_00000000.txtp_b_00000000.txtp")
    ∧ strL "a_00000000.txtp_b_00000000.txtp" ≠ strL "a.txtp_b_00000000.txtp" :=
  ⟨rfl, by decide⟩

/-- **C6**: `Cr32Helper.update` records "not a duplicate" without touching the
checksum ledger when duplicate-testing is off or the path does not exist;
otherwise it checksums the file's bytes (streamed in fixed chunks through the
incremental CRC-32), records a duplicate exactly when the 8-digit lowercase
hex string is already in the ledger and inserts it otherwise — so two
byte-identical files fed through `update` in sequence yield non-duplicate
(with the checksum inserted) then duplicate, regardless of the paths. -/
theorem c6_duplicate_detector (cfg : Cfg) (st : CrcSt) (fs : List Char → Option (List Nat))
    (q p1 p2 : List Char) (d : List Nat) (b : Bool) :
    (cfg.test_dupes = false → crcUpdate cfg st fs q = { st with lastDupe := false })
    ∧ (fs q = none → crcUpdate cfg st fs q = { st with lastDupe := false })
    ∧ (cfg.test_dupes = true → fs q = some d →
        crcUpdate cfg st fs q =
          (if st.crc32Map.contains (hex8 (getCrc32 d))
           then ⟨st.crc32Map, true⟩
           else ⟨st.crc32Map ++ [hex8 (getCrc32 d)], false⟩))
    ∧ (cfg.test_dupes = true → fs p1 = some d → fs p2 = some d →
        (crcUpdate cfg ⟨[], b⟩ fs p1).lastDupe = false
        ∧ (crcUpdate cfg ⟨[], b⟩ fs p1).crc32Map = [hex8 (getCrc32 d)]
        ∧ (crcUpdate cfg (crcUpdate cfg ⟨[], b⟩ fs p1) fs p2).lastDupe = true) := by
  refine ⟨?_, ?_, ?_, ?_⟩
  · intro h
    simp [crcUpdate, h]
  · intro h
    by_cases ht : cfg.test_dupes = true <;> simp [crcUpdate, h, ht]
  · intro ht hq
    simp [crcUpdate, ht, hq]
  · intro ht h1p h2p
    have hu1 : crcUpdate cfg ⟨[], b⟩ fs p1 = ⟨[hex8 (getCrc32 d)], false⟩ := by
      simp [crcUpdate, ht, h1p]
    refine ⟨by rw [hu1], by rw [hu1], ?_⟩
    rw [hu1]
    simp [crcUpdate, ht, h2p]

theorem c6_witness :
    (crcUpdate cfgDupes ⟨[], false⟩ fsW (strL "p1")).lastDupe = false
    ∧ (crcUpdate cfgDupes ⟨[], false⟩ fsW (strL "p1")).crc32Map = [hex8 (getCrc32 [1, 2, 3])]
    ∧ (crcUpdate cfgDupes (crcUpdate cfgDupes ⟨[], false⟩ fsW (strL "p1")) fsW
        (strL "p2")).lastDupe = true :=
  (c6_duplicate_detector cfgDupes ⟨[], false⟩ fsW (strL "p1") (strL "p1") (strL "p2") [1, 2, 3]
    false).2.2.2 rfl rfl rfl

/-- **C7** (amended): when no template is configured or it expands empty, the
descriptor takes the fallback name: the basename with its extension cut — the
cut happening only when the last dot's index is at least 2, so a name like
`x.y` keeps its dot — plus `_<index>` appended exactly when a subsong index
applies, and the index applies exactly when the stream count exceeds 1; so a
single-stream report with default naming produces exactly one descriptor named
`<stem>.txtp` with no index suffix, and a multi-stream report one descriptor
named `<stem>_<index>.txtp` (its content line gaining the `#<index>` suffix). -/
theorem c7_fallback_name (cfg : Cfg) (r : Report) (path clean : List Char)
    (rm : List (List Char × Nat))
    (hig : isIgnorable cfg r = false)
    (hmini : cfg.mini_txtp = false)
    (hlay : (truthyInt cfg.layers && decide ((cfg.layers).getD 0 < r.channels)) = false)
    (htmpl : templateOutname cfg r (pyStem (pyBasename path)) (subsongIndex cfg r) = []) :
    (∃ st', make cfg r path clean ⟨rm, []⟩
      = .ok (st',
          [match subsongIndex cfg r with
           | none =>
             (pyStem (pyBasename path) ++ strL ".txtp",
              (if truthyStr cfg.subdir then (cfg.subdir).getD [] else []) ++ clean)
           | some i =>
             (pyStem (pyBasename path) ++ strL "_" ++ i ++ strL ".txtp",
              (if truthyStr cfg.subdir then (cfg.subdir).getD [] else [])
                ++ clean ++ strL "#" ++ i)]))
    ∧ (subsongIndex cfg r = none ↔ r.streamCount ≤ 1) := by
  constructor
  · cases hidx : subsongIndex cfg r with
    | none =>
      rw [hidx] at htmpl
      have hw : writeTxtp cfg ⟨rm, []⟩ (pyStem (pyBasename path))
          ((if truthyStr cfg.subdir then (cfg.subdir).getD [] else []) ++ clean)
          = .ok (⟨rm, [pyStem (pyBasename path) ++ strL ".txtp"]⟩,
                 pyStem (pyBasename path) ++ strL ".txtp") := by
        simp [writeTxtp, pathExists]
      refine ⟨⟨rm, [pyStem (pyBasename path) ++ strL ".txtp"]⟩, ?_⟩
      simp only [make, hig, hmini, hidx, hlay, htmpl, Bool.false_eq_true, if_false]
      simp [writeMany, hw]
    | some i =>
      rw [hidx] at htmpl
      have hw : writeTxtp cfg ⟨rm, []⟩ (pyStem (pyBasename path) ++ strL "_" ++ i)
          ((if truthyStr cfg.subdir then (cfg.subdir).getD [] else []) ++ clean ++ strL "#" ++ i)
          = .ok (⟨rm, [pyStem (pyBasename path) ++ strL "_" ++ i ++ strL ".txtp"]⟩,
                 pyStem (pyBasename path) ++ strL "_" ++ i ++ strL ".txtp") := by
        simp [writeTxtp, pathExists]
      simp only [List.append_assoc] at hw
      refine ⟨⟨rm, [pyStem (pyBasename path) ++ strL "_" ++ i ++ strL ".txtp"]⟩, ?_⟩
      simp only [make, hig, hmini, hidx, hlay, htmpl, Bool.false_eq_true, if_false]
      simp [writeMany, hw]
  · unfold subsongIndex
    by_cases h : r.streamCount ≤ 1
    · simp [h]
    · cases hz : cfg.zero_fill with
      | none => simp [h, hz]
      | some z => by_cases hzn : z < 0 <;> simp [h, hz, hzn]

theorem c7_witness :
    (∃ st', make cfgNone ⟨2, 48000, 0, 1, 0, none⟩ (strL "bgm.fsb") (strL "bgm.fsb") ⟨[], []⟩
        = .ok (st', [(strL "bgm.txtp", strL "bgm.fsb")]))
    ∧ (∃ st', make cfgNone ⟨2, 48000, 0, 3, 2, none⟩ (strL "bgm.fsb") (strL "bgm.fsb") ⟨[], []⟩
        = .ok (st', [(strL "bgm_2.txtp", strL "bgm.fsb#2")])) := by
  constructor
  · obtain ⟨st', hst⟩ := (c7_fallback_name cfgNone ⟨2, 48000, 0, 1, 0, none⟩ (strL "bgm.fsb")
      (strL "bgm.fsb") [] (by decide) rfl (by decide) rfl).1
    refine ⟨st', ?_⟩
    rw [hst]
    rfl
  · obtain ⟨st', hst⟩ := (c7_fallback_name cfgNone ⟨2, 48000, 0, 3, 2, none⟩ (strL "bgm.fsb")
      (strL "bgm.fsb") [] (by decide) rfl (by decide) rfl).1
    refine ⟨st', ?_⟩
    rw [hst]
    rfl

/-- **C7** counterexample: for the input filename `x.y` the code keeps the
dot (the extension cut requires the last dot at index ≥ 2), producing
`x.y.txtp` rather than the claim's `<filename-without-ext>.txtp` = `x.txtp`. -/
theorem c7_counterexample :
    (∃ st', make cfgNone ⟨2, 48000, 0, 1, 0, none⟩ (strL "x.y") (strL "x.y") ⟨[], []⟩
        = .ok (st', [(strL "x.y.txtp", strL "x.y")]))
    ∧ strL "x.y.txtp" ≠ strL "x.txtp" :=
  ⟨⟨⟨[], [strL "x.y.txtp"]⟩, rfl⟩, by decide⟩

/-- **C9**: in the subsong loop, `update()` runs only for non-ignorable
reports while `is_last_dupe()` is queried unconditionally, so when the
previous subsong's artifact was recorded as a duplicate and the current report
is ignorable, the stale verdict counts the current subsong as a dupe and
`make` is never invoked (checksum state, write state and `created` all
unchanged). -/
theorem c9_stale_dupe_verdict (cfg : Cfg) (fs : List Char → Option (List Nat))
    (crc : CrcSt) (wst : WriteSt) (r : Report) (pb pc po : List Char)
    (hig : isIgnorable cfg r = true) (hd : crc.lastDupe = true) :
    appStep cfg fs crc wst r pb pc po = .ok (crc, wst, 0, 1, false) := by
  simp [appStep, hig, hd]

theorem c9_witness :
    appStep { cfgNone with test_dupes := true, min_channels := some 5 } (fun _ => none)
      ⟨[strL "00000000"], true⟩ ⟨[], []⟩ ⟨2, 48000, 0, 3, 2, none⟩
      (strL "a.fsb") (strL "a.fsb") (strL ".temp.a.fsb.wav")
      = .ok (⟨[strL "00000000"], true⟩, ⟨[], []⟩, 0, 1, false) :=
  c9_stale_dupe_verdict _ _ _ _ _ _ _ _ (by decide) rfl

end Txtp
